import Mathlib

/-!
# Verification of the Product Configuration Engine

A shallow embedding, in Lean 4, of the TypeScript library
`product-variants-core` (files `src/index.ts`, `src/constraints.ts`,
`src/modifiers.ts`), together with theorems settling the behavioural
claims made by the library's specification.

## Modelling conventions

* JavaScript strings are modelled as `List Char` (`JsStr`).
* JavaScript numbers are modelled as `ℚ`.  The host primitive `Number(s)`
  is modelled by `jsNumberOpt`, which covers the forms that can reach the
  engine: surrounding whitespace, the empty string (which converts to `0`),
  an optional sign, and decimal digit strings with an optional fraction
  part.  Other numeric spellings (hexadecimal, exponents, `Infinity`) are
  not modelled and evaluate to `none`; since the engine replaces every
  non-finite parse by `0`, this difference is invisible to all claims,
  which only exercise digit strings and a fractional literal.
* `Array.prototype.sort` (stable, comparator-driven) is modelled by
  `List.mergeSort` over the boolean relation `comparator ≤ 0`.
* The JavaScript `Map` built by `new Map(pairs)` (later entries win) and
  the first-wins map of the reconciler are modelled by list searches with
  the corresponding orientation.
-/

/-- A JavaScript string, modelled as its list of characters. -/
abbrev JsStr := List Char

/-- The whitespace characters recognised by the model of `String.prototype.trim`. -/
def isWsChar (c : Char) : Bool :=
  c = ' ' || c = '\t' || c = '\n' || c = '\r'

/-- Model of `s.trim()`: strip whitespace from both ends. -/
def jsTrim (s : JsStr) : JsStr :=
  ((s.dropWhile isWsChar).reverse.dropWhile isWsChar).reverse

/-- Model of `s.split(sep)` for a single-character separator (the engine
only ever splits on its one-character key separator, default `"-"`). -/
def splitOnChar (c : Char) : JsStr → List JsStr
  | [] => [[]]
  | a :: rest =>
    if a = c then [] :: splitOnChar c rest
    else
      match splitOnChar c rest with
      | [] => [[a]]
      | h :: t => (a :: h) :: t

/-- Model of `parts.join(c)` for a single-character separator. -/
def joinWithChar (c : Char) : List JsStr → JsStr
  | [] => []
  | [p] => p
  | p :: ps => p ++ c :: joinWithChar c ps

/-- Model of `parts.join(sep)` for a string separator. -/
def joinWithStr (sep : JsStr) : List JsStr → JsStr
  | [] => []
  | [p] => p
  | p :: ps => p ++ sep ++ joinWithStr sep ps

/-- The numeric value of a decimal digit character. -/
def digitVal (c : Char) : ℕ := c.toNat - 48

/-- Big-endian decimal reading of a digit string. -/
def digitsToNat (s : JsStr) : ℕ :=
  s.foldl (fun acc c => 10 * acc + digitVal c) 0

/-- Parse an unsigned decimal numeral, with an optional fraction part
(`"12"`, `"12."`, `"12.5"`, `".5"`); `none` models `NaN`. -/
def parseUnsignedQ (s : JsStr) : Option ℚ :=
  let intPart := s.takeWhile Char.isDigit
  match s.drop intPart.length with
  | [] => if intPart.isEmpty then none else some (digitsToNat intPart : ℚ)
  | '.' :: fracPart =>
    if fracPart.all Char.isDigit && !(intPart.isEmpty && fracPart.isEmpty) then
      some ((digitsToNat intPart : ℚ) + (digitsToNat fracPart : ℚ) / (10 : ℚ) ^ fracPart.length)
    else none
  | _ => none

/-- Model of the host conversion `Number(s)` (see the module docstring for
the covered subset); `none` models `NaN` and the non-finite values. -/
def jsNumberOpt (s : JsStr) : Option ℚ :=
  match jsTrim s with
  | [] => some 0
  | c :: rest =>
    if c = '-' then (parseUnsignedQ rest).map Neg.neg
    else if c = '+' then parseUnsignedQ rest
    else parseUnsignedQ (c :: rest)

/-- Big-endian digit characters of `n` (`n ≠ 0`), produced with enough
fuel; `natToCharsAux fuel n` is the decimal spelling of `n` whenever
`n ≤ fuel`. -/
def natToCharsAux : ℕ → ℕ → JsStr
  | 0, _ => []
  | fuel + 1, n =>
    if n = 0 then []
    else natToCharsAux fuel (n / 10) ++ [Nat.digitChar (n % 10)]

/-- Decimal rendering of a natural number, as `String(n)` would produce. -/
def natToChars (n : ℕ) : JsStr :=
  if n = 0 then ['0'] else natToCharsAux n n

/-- Decimal rendering of an integer. -/
def intToChars (i : ℤ) : JsStr :=
  if i < 0 then '-' :: natToChars i.natAbs else natToChars i.natAbs

/-- Fractional digits of `num / den` (`num < den`), `fuel` digits deep. -/
def fracDigits (fuel : ℕ) (num den : ℕ) : JsStr :=
  match fuel with
  | 0 => []
  | fuel + 1 =>
    if num = 0 then []
    else
      let q := 10 * num / den
      Nat.digitChar q :: fracDigits fuel (10 * num % den) den

/-- Model of the host conversion `String(q)` for a number `q`.  Integral
values render exactly; for non-integral values the decimal expansion is
produced digit by digit (exact for every value a JavaScript double can
take, i.e. denominators of the form `2^a`; truncated for denominators the
model admits but a double cannot represent). -/
def jsNumToString (q : ℚ) : JsStr :=
  if q.den = 1 then intToChars q.num
  else
    let sign : JsStr := if q.num < 0 then ['-'] else []
    let n := q.num.natAbs
    sign ++ natToChars (n / q.den) ++ '.' :: fracDigits (2 * q.den) (n % q.den) q.den

/-- Indexing a list by a JavaScript number: `arr[q]` is defined only for
integral, in-range `q`; every other access is `undefined` (`none`). -/
def listGetQ {α : Type} (l : List α) (q : ℚ) : Option α :=
  if q.den = 1 ∧ 0 ≤ q.num then l[q.num.toNat]? else none

/-! ## Data model (`src/index.ts`) -/

/-- `VariantOption` from `src/index.ts`. -/
structure VariantOption where
  value : JsStr
deriving DecidableEq

/-- `VariantType` from `src/index.ts`: a named axis owning ordered options. -/
structure VariantType where
  value : JsStr
  variantOptions : List VariantOption
deriving DecidableEq

/-- `VariantSelectionItem` from `src/index.ts`.  `typeIndex` is an integer
(the constraint engine fabricates `-1` placeholders), and
`optionIndex1Based` is a JavaScript number, hence `ℚ` in the model. -/
structure VariantSelectionItem where
  typeIndex : ℤ
  optionIndex1Based : ℚ
  typeValue : JsStr
  optionValue : JsStr
deriving DecidableEq

/-- `ChildVariant` from `src/index.ts`: a materialized combination record.
`cost`/`stock` are nullable numbers (`none` models `null`/absent). -/
structure ChildVariant where
  variantKey : JsStr
  title : JsStr
  sku : JsStr
  cost : Option ℚ
  stock : Option ℚ
  imageIds : List ℚ
deriving DecidableEq

/-! ## Key codec (`src/index.ts`) -/

/-- `cartesianIndexProduct` from `src/index.ts` (lines 67–79): cartesian
combinations of 1-based indices.  The `Number.isFinite` guard of the
source is vacuous for the `ℕ` counts every in-repo caller passes, so
`firstCount <= 0` becomes `firstCount = 0`. -/
def cartesianIndexProduct : List ℕ → List (List ℕ)
  | [] => []
  | firstCount :: rest =>
    if firstCount = 0 then []
    else
      let first := List.range' 1 firstCount
      let remaining := cartesianIndexProduct rest
      first.flatMap fun idx =>
        if remaining.length ≠ 0 then remaining.map fun combo => idx :: combo
        else [[idx]]

/-- `toVariantKey` from `src/index.ts`: join 1-based indices with the
separator (default `'-'`). -/
def toVariantKey (indices1Based : List ℕ) (separator : Char) : JsStr :=
  joinWithChar separator (indices1Based.map natToChars)

/-- `parseVariantKey` from `src/index.ts`: split on the separator and
convert each segment with `Number`, replacing non-finite parses by `0`. -/
def parseVariantKey (variantKey : JsStr) (separator : Char) : List ℚ :=
  if variantKey = [] then []
  else (splitOnChar separator variantKey).map fun s =>
    match jsNumberOpt s with
    | some n => n
    | none => 0

/-- The comparison loop of `sortVariantKeysAsc`: walk both parsed index
tuples up to the longer length, padding with `0`, and return the first
nonzero difference. -/
def keyCmp : List ℚ → List ℚ → ℚ
  | [], [] => 0
  | [], b :: bs => if (0 : ℚ) ≠ b then 0 - b else keyCmp [] bs
  | a :: as, [] => if a ≠ (0 : ℚ) then a - 0 else keyCmp as []
  | a :: as, b :: bs => if a ≠ b then a - b else keyCmp as bs

/-- `sortVariantKeysAsc` from `src/index.ts` (lines 96–110): the
index-tuple comparator on key strings. -/
def sortVariantKeysAsc (a b : JsStr) (separator : Char) : ℚ :=
  keyCmp (parseVariantKey a separator) (parseVariantKey b separator)

/-- `variantKeyToLabel` from `src/index.ts`: human-readable label built
from the option values addressed by the key. -/
def variantKeyToLabel (variantKey : JsStr) (variantTypes : List VariantType)
    (labelSeparator : JsStr) (keySeparator : Char) : JsStr :=
  let indices := parseVariantKey variantKey keySeparator
  let values := indices.enum.map fun p =>
    match variantTypes[p.1]? with
    | none => []
    | some t =>
      match listGetQ t.variantOptions (p.2 - 1) with
      | none => []
      | some o => o.value
  if 1 < variantTypes.length then joinWithStr labelSeparator values
  else joinWithStr [] values

/-- `variantKeyToSelection` from `src/index.ts` (lines 133–150): resolve
each key segment to a `(typeValue, optionValue)` pair, with missing
lookups degrading to the empty string. -/
def variantKeyToSelection (variantKey : JsStr) (variantTypes : List VariantType)
    (keySeparator : Char) : List VariantSelectionItem :=
  (parseVariantKey variantKey keySeparator).enum.map fun p =>
    { typeIndex := (p.1 : ℤ)
      optionIndex1Based := p.2
      typeValue :=
        match variantTypes[p.1]? with
        | none => []
        | some t => t.value
      optionValue :=
        match variantTypes[p.1]? with
        | none => []
        | some t =>
          match listGetQ t.variantOptions (p.2 - 1) with
          | none => []
          | some o => o.value }

/-- `variantKeyToValues` from `src/index.ts`: the option values addressed
by a key. -/
def variantKeyToValues (variantKey : JsStr) (variantTypes : List VariantType)
    (keySeparator : Char) : List JsStr :=
  (variantKeyToSelection variantKey variantTypes keySeparator).map
    fun s => s.optionValue

/-- `isUsableLabel` from `src/index.ts` (lines 192–200). -/
def isUsableLabel (label : JsStr) (labelSeparator : JsStr) : Bool :=
  let trimmed := jsTrim label
  if trimmed = [] then false
  else if (jsTrim labelSeparator).isPrefixOf trimmed then false
  else if (jsTrim labelSeparator).isSuffixOf trimmed then false
  else if ['-'].isPrefixOf trimmed || ['-'].isSuffixOf trimmed then false
  else true

/-! ## Combination generator (`src/index.ts`, lines 207–258) -/

/-- The default child record synthesized by `generateChildVariants` when
no factory is supplied. -/
def defaultChild (variantKey : JsStr) : ChildVariant :=
  { variantKey := variantKey, title := [], sku := [], cost := none,
    stock := none, imageIds := [] }

/-- `GenerateChildVariantsOptions` from `src/index.ts`, with the defaults
already resolved as in the destructuring at the top of
`generateChildVariants`. -/
structure GenerateChildVariantsOptions where
  existing : List ChildVariant
  createDefault : Option (JsStr → ChildVariant)
  filterInvalidTitles : Bool
  labelSeparator : JsStr
  keySeparator : Char

/-- The option record with every field at its source default. -/
def defaultGenerateOptions : GenerateChildVariantsOptions :=
  { existing := [], createDefault := none, filterInvalidTitles := true,
    labelSeparator := [' ', '-', ' '], keySeparator := '-' }

/-- The per-combination child construction inside `generateChildVariants`:
reuse the existing child stored under this key (the `Map` keeps the last
duplicate), else ask the caller's factory, else synthesize the default. -/
def buildChild (options : GenerateChildVariantsOptions) (key : JsStr) : ChildVariant :=
  match options.existing.reverse.find? fun c => c.variantKey = key with
  | some existingChild => existingChild
  | none =>
    match options.createDefault with
    | some create => create key
    | none => defaultChild key

/-- `generateChildVariants` from `src/index.ts` (lines 207–258).  The
`Map` keyed by `variantKey` (later duplicates win) is modelled by a
reverse search; `[...children].sort(cmp)` is modelled by the stable
`List.mergeSort` over `cmp ≤ 0`. -/
def generateChildVariants (variantTypes : List VariantType)
    (options : GenerateChildVariantsOptions) : List ChildVariant :=
  let counts := variantTypes.map fun t => t.variantOptions.length
  let combos := cartesianIndexProduct counts
  let children := combos.map fun indices =>
    buildChild options (toVariantKey indices options.keySeparator)
  let sorted := children.mergeSort fun x y =>
    decide (sortVariantKeysAsc x.variantKey y.variantKey options.keySeparator ≤ 0)
  if !options.filterInvalidTitles then sorted
  else sorted.filter fun child =>
    isUsableLabel
      (variantKeyToLabel child.variantKey variantTypes options.labelSeparator
        options.keySeparator)
      options.labelSeparator

/-! ## Reconciler (`src/index.ts`, lines 404–518) -/

/-- `toSignature` from `src/index.ts` (lines 427–438): the normalized,
`'\x01'`-joined tuple of option values used to re-identify combinations. -/
def toSignature (optionValues : List JsStr) (caseInsensitive trim : Bool) : JsStr :=
  let normalize := fun (s : JsStr) =>
    let x := if trim then jsTrim s else s
    if caseInsensitive then x.map Char.toLower else x
  joinWithChar '\x01' (optionValues.map normalize)

/-- `ReconcileChildVariantsOptions` from `src/index.ts`, defaults resolved. -/
structure ReconcileChildVariantsOptions where
  existing : List ChildVariant
  createDefault : Option (JsStr → ChildVariant)
  labelSeparator : JsStr
  keySeparator : Char
  filterInvalidTitles : Bool
  caseInsensitiveMatch : Bool
  trimMatch : Bool

/-- The reconcile option record with every field at its source default. -/
def defaultReconcileOptions : ReconcileChildVariantsOptions :=
  { existing := [], createDefault := none,
    labelSeparator := [' ', '-', ' '], keySeparator := '-',
    filterInvalidTitles := true, caseInsensitiveMatch := false,
    trimMatch := true }

/-- `ReconcileChildVariantsResult` from `src/index.ts`. -/
structure ReconcileChildVariantsResult where
  children : List ChildVariant
  dropped : List ChildVariant
deriving DecidableEq

/-- The signature of an existing child, recomputed under a type list via
its stored key (the expression repeated through `reconcileChildVariants`). -/
def childSignature (variantTypes : List VariantType)
    (options : ReconcileChildVariantsOptions) (c : ChildVariant) : JsStr :=
  toSignature (variantKeyToValues c.variantKey variantTypes options.keySeparator)
    options.caseInsensitiveMatch options.trimMatch

/-- `reconcileChildVariants` from `src/index.ts` (lines 445–518).  The
first-wins `previousBySignature` map is modelled by a forward `find?`
over `existing`; `usedSignatures` is the list of signatures of generated
children that found a match. -/
def reconcileChildVariants (previousVariantTypes nextVariantTypes : List VariantType)
    (options : ReconcileChildVariantsOptions) : ReconcileChildVariantsResult :=
  let sigPrev := childSignature previousVariantTypes options
  let sigNext := fun (key : JsStr) =>
    toSignature (variantKeyToValues key nextVariantTypes options.keySeparator)
      options.caseInsensitiveMatch options.trimMatch
  let generated := generateChildVariants nextVariantTypes
    { existing := []
      createDefault := some fun variantKey =>
        match options.createDefault with
        | some create => create variantKey
        | none => defaultChild variantKey
      filterInvalidTitles := options.filterInvalidTitles
      labelSeparator := options.labelSeparator
      keySeparator := options.keySeparator }
  let children := generated.map fun child =>
    match options.existing.find? fun r => sigPrev r = sigNext child.variantKey with
    | some prev => { prev with variantKey := child.variantKey }
    | none => child
  let usedSignatures := generated.filterMap fun child =>
    if (options.existing.find? fun r => sigPrev r = sigNext child.variantKey).isSome
    then some (sigNext child.variantKey)
    else none
  let dropped := options.existing.filter fun c => !(usedSignatures.contains (sigPrev c))
  { children := children, dropped := dropped }

/-! ## Constraint engine (`src/constraints.ts`) -/

namespace Constraints

/-- `ConstraintOperator` from `src/constraints.ts`. -/
inductive ConstraintOperator where
  | equals
  | notEquals
  | isIn
  | notIn
deriving DecidableEq

/-- The operator of a `RecursiveCondition` (`"AND" | "OR"`). -/
inductive GroupOperator where
  | and
  | or
deriving DecidableEq

/-- `LogicCondition` from `src/constraints.ts`: either a `SimpleCondition`
`{ typeValue, optionValue: string | string[], operator? }` or a
`RecursiveCondition` `{ operator: AND|OR, conditions }`.  The TypeScript
union is discriminated by the presence of `typeValue`
(`isSimpleCondition`), which the constructors make explicit. -/
inductive LogicCondition where
  | simple (typeValue : JsStr) (optionValue : JsStr ⊕ List JsStr)
      (operator : Option ConstraintOperator)
  | group (operator : GroupOperator) (conditions : List LogicCondition)

/-- The `then` effect of a `VariantConstraint`. -/
structure ConstraintEffect where
  typeValue : JsStr
  action : Bool
  options : List JsStr
deriving DecidableEq

/-- The `action` literal `"allow"`. -/
def allowAction : Bool := true

/-- The `action` literal `"disallow"`. -/
def disallowAction : Bool := false

/-- `VariantConstraint` from `src/constraints.ts`.  The TypeScript fields
`if`/`then` are Lean keywords and are rendered `ifCond`/`thenEffect`. -/
structure VariantConstraint where
  id : JsStr
  description : Option JsStr
  ifCond : LogicCondition
  thenEffect : ConstraintEffect

/-- `isConditionMet` from `src/constraints.ts` (lines 51–97): recursive
evaluation of a condition tree against a flat selection.  A leaf with an
unselected `typeValue` is `false`; a missing operator is inferred as
`in` for array targets and `equals` otherwise; an empty recursive group
is `false` for both `AND` and `OR`. -/
def isConditionMet (selection : List VariantSelectionItem) :
    LogicCondition → Bool
  | .simple typeValue optionValue operator =>
    match selection.find? fun s => s.typeValue = typeValue with
    | none => false
    | some selectedItem =>
      let val := selectedItem.optionValue
      let target := optionValue
      let op := match operator with
        | some o => o
        | none =>
          match target with
          | .inl _ => ConstraintOperator.equals
          | .inr _ => ConstraintOperator.isIn
      match op with
      | .equals =>
        match target with
        | .inl t => val = t
        | .inr _ => false
      | .notEquals =>
        match target with
        | .inl t => val ≠ t
        | .inr _ => true
      | .isIn =>
        match target with
        | .inl _ => false
        | .inr l => val ∈ l
      | .notIn =>
        match target with
        | .inl _ => false
        | .inr l => val ∉ l
  | .group operator conditions =>
    if conditions.isEmpty then false
    else
      match operator with
      | .and => conditions.attach.all fun c => isConditionMet selection c.1
      | .or => conditions.attach.any fun c => isConditionMet selection c.1
decreasing_by
  all_goals
    have := List.sizeOf_lt_of_mem c.2
    simp only [LogicCondition.group.sizeOf_spec]
    omega

/-- `ValidatorResult` from `src/constraints.ts`. -/
structure ValidatorResult where
  valid : Bool
  blockedBy : List JsStr
deriving DecidableEq

/-- The body of `validateSelection`'s loop: whether one constraint pushes
its id onto `blockedBy` for this selection. -/
def constraintBlocks (selection : List VariantSelectionItem)
    (constraint : VariantConstraint) : Bool :=
  isConditionMet selection constraint.ifCond &&
    match selection.find? fun s => s.typeValue = constraint.thenEffect.typeValue with
    | none => false
    | some targetSelection =>
      let val := targetSelection.optionValue
      let allowedList := constraint.thenEffect.options
      if constraint.thenEffect.action = allowAction then !(allowedList.contains val)
      else allowedList.contains val

/-- `validateSelection` from `src/constraints.ts` (lines 107–145): collect
the ids of blocking constraints in order; the selection is valid iff no
constraint blocked. -/
def validateSelection (selection : List VariantSelectionItem)
    (constraints : List VariantConstraint) : ValidatorResult :=
  let blockedBy := (constraints.filter (constraintBlocks selection)).map fun c => c.id
  { valid := blockedBy.isEmpty, blockedBy := blockedBy }

end Constraints

/-! ## Modifier engine (`src/modifiers.ts`) -/

namespace Modifiers

/-- `ModifierOperation` from `src/modifiers.ts`. -/
inductive ModifierOperation where
  | add
  | subtract
  | multiply
  | set
deriving DecidableEq

/-- `ModifierCondition` from `src/modifiers.ts`: a flat condition whose
target can be a single option value or a list. -/
structure ModifierCondition where
  typeValue : JsStr
  optionValue : JsStr ⊕ List JsStr
deriving DecidableEq

/-- The field names a modifier may touch: `keyof ChildVariant & string`. -/
inductive Field where
  | variantKey
  | title
  | sku
  | cost
  | stock
  | imageIds
deriving DecidableEq

/-- A dynamic JavaScript value as stored in a variant record.  `str` and
`num` are the `typeof`-dispatched cases of `applyModifiers`; `null` and
`undef` both satisfy `== null`; `numList` models the `imageIds` array,
which matches none of the branches. -/
inductive JsValue where
  | str (s : JsStr)
  | num (q : ℚ)
  | null
  | undef
  | numList (l : List ℚ)
deriving DecidableEq

/-- One entry of a modifier's `then` list. -/
structure ModifierAction where
  field : Field
  operation : ModifierOperation
  value : JsStr ⊕ ℚ
deriving DecidableEq

/-- `VariantModifier` from `src/modifiers.ts`; the TypeScript fields
`if`/`then` are rendered `ifCond`/`thenActions`. -/
structure VariantModifier where
  id : JsStr
  description : Option JsStr
  ifCond : ModifierCondition
  thenActions : List ModifierAction
deriving DecidableEq

/-- A variant record as the modifier engine sees it: the `ChildVariant`
fields as dynamic slots (the source casts the clone to `any` and reads
and writes fields by name, so a `set` may store a string in `cost`). -/
structure ChildRecord where
  variantKey : JsValue
  title : JsValue
  sku : JsValue
  cost : JsValue
  stock : JsValue
  imageIds : JsValue
deriving DecidableEq

/-- Dynamic field read, `result[action.field]`. -/
def ChildRecord.get (r : ChildRecord) : Field → JsValue
  | .variantKey => r.variantKey
  | .title => r.title
  | .sku => r.sku
  | .cost => r.cost
  | .stock => r.stock
  | .imageIds => r.imageIds

/-- Dynamic field write, `result[action.field] = v`. -/
def ChildRecord.set (r : ChildRecord) : Field → JsValue → ChildRecord
  | .variantKey, v => { r with variantKey := v }
  | .title, v => { r with title := v }
  | .sku, v => { r with sku := v }
  | .cost, v => { r with cost := v }
  | .stock, v => { r with stock := v }
  | .imageIds, v => { r with imageIds := v }

/-- `String(changeVal)` applied to a modifier operand. -/
def operandToString : JsStr ⊕ ℚ → JsStr
  | .inl s => s
  | .inr q => jsNumToString q

/-- A modifier operand as a stored dynamic value. -/
def operandToValue : JsStr ⊕ ℚ → JsValue
  | .inl s => .str s
  | .inr q => .num q

/-- `isConditionMet` from `src/modifiers.ts` (lines 32–46): the modifier
subsystem's flat condition check (array target ⇒ membership, string
target ⇒ strict equality, unselected axis ⇒ `false`). -/
def isConditionMet (selection : List VariantSelectionItem)
    (condition : ModifierCondition) : Bool :=
  match selection.find? fun s => s.typeValue = condition.typeValue with
  | none => false
  | some selectedItem =>
    match condition.optionValue with
    | .inr target => selectedItem.optionValue ∈ target
    | .inl target => selectedItem.optionValue = target

/-- The inner loop body of `applyModifiers` (lines 66–104): apply one
field transform to the current record, dispatching on the runtime types
of the current value and the operand exactly as the source's
`typeof`/`== null` chain does. -/
def applyAction (r : ChildRecord) (action : ModifierAction) : ChildRecord :=
  let currentVal := r.get action.field
  match currentVal, action.value with
  | .num q, .inr c =>
    match action.operation with
    | .add => r.set action.field (.num (q + c))
    | .subtract => r.set action.field (.num (q - c))
    | .multiply => r.set action.field (.num (q * c))
    | .set => r.set action.field (.num c)
  | .str s, v =>
    match action.operation with
    | .add => r.set action.field (.str (s ++ operandToString v))
    | .set => r.set action.field (.str (operandToString v))
    | _ => r
  | .null, v | .undef, v =>
    match action.operation with
    | .set => r.set action.field (operandToValue v)
    | .add => r.set action.field (operandToValue v)
    | _ => r
  | _, _ => r

/-- One pass of `applyModifiers`'s outer loop: a modifier whose condition
holds replays its `then` transforms in order. -/
def applyModifier (selection : List VariantSelectionItem) (r : ChildRecord)
    (m : VariantModifier) : ChildRecord :=
  if isConditionMet selection m.ifCond then m.thenActions.foldl applyAction r
  else r

/-- `applyModifiers` from `src/modifiers.ts` (lines 56–110): clone the
base record and replay every triggered modifier in list order. -/
def applyModifiers (baseProduct : ChildRecord)
    (selection : List VariantSelectionItem)
    (modifiers : List VariantModifier) : ChildRecord :=
  modifiers.foldl (applyModifier selection) baseProduct

end Modifiers

/-! ## Connecting the two condition evaluators -/

/-- The inclusion of the modifier subsystem's flat condition into the
constraint subsystem's condition language: a `ModifierCondition` is a
`SimpleCondition` with no explicit operator (in TypeScript's structural
typing, `ModifierCondition` is literally assignable to `LogicCondition`). -/
def Modifiers.ModifierCondition.toLogicCondition
    (c : Modifiers.ModifierCondition) : Constraints.LogicCondition :=
  .simple c.typeValue c.optionValue none

/-- The strict lexicographic order on index tuples, used to state that
generated combinations ascend. -/
def idxLtB : List ℕ → List ℕ → Bool
  | [], _ => false
  | _ :: _, [] => false
  | a :: as, b :: bs => a < b || (a = b && idxLtB as bs)

/-- C4: the condition evaluator is shared by the constraint and modifier
subsystems: a modifier's if-condition, read as a `LogicCondition`, is
decided by `applyModifiers` with exactly the semantics of the
constraints' recursive evaluator `isConditionMet`. -/
theorem C4_shared_condition_evaluator :
    (∀ (selection : List VariantSelectionItem) (c : Modifiers.ModifierCondition),
      Modifiers.isConditionMet selection c =
        Constraints.isConditionMet selection c.toLogicCondition)
    ∧ ∀ (base : Modifiers.ChildRecord) (selection : List VariantSelectionItem)
        (m : Modifiers.VariantModifier) (rest : List Modifiers.VariantModifier),
      Modifiers.applyModifiers base selection (m :: rest) =
        Modifiers.applyModifiers
          (if Constraints.isConditionMet selection m.ifCond.toLogicCondition
           then m.thenActions.foldl Modifiers.applyAction base
           else base)
          selection rest := by
  have evalEq : ∀ (selection : List VariantSelectionItem)
      (c : Modifiers.ModifierCondition),
      Modifiers.isConditionMet selection c =
        Constraints.isConditionMet selection c.toLogicCondition := by
    intro selection c
    obtain ⟨tv, ov⟩ := c
    simp only [Modifiers.isConditionMet, Constraints.isConditionMet,
      Modifiers.ModifierCondition.toLogicCondition]
    cases selection.find? fun s => s.typeValue = tv with
    | none => rfl
    | some item => cases ov <;> rfl
  refine ⟨evalEq, fun base selection m rest => ?_⟩
  simp only [Modifiers.applyModifiers, List.foldl_cons, Modifiers.applyModifier,
    evalEq selection m.ifCond]

/-- C5 counterexample: with axis `Color` selected as `Red` and the leaf
target being the single string `"Red"`, the `in` and `not_in` operators
both evaluate to `false`, so the complementary-pair claim fails for
string targets. -/
theorem C5_counterexample :
    ¬ (Constraints.isConditionMet
        [⟨0, 1, [ 'C', 'o', 'l', 'o', 'r' ], [ 'R', 'e', 'd' ]⟩]
        (.simple [ 'C', 'o', 'l', 'o', 'r' ] (.inl [ 'R', 'e', 'd' ])
          (some .isIn)) =
      ! Constraints.isConditionMet
        [⟨0, 1, [ 'C', 'o', 'l', 'o', 'r' ], [ 'R', 'e', 'd' ]⟩]
        (.simple [ 'C', 'o', 'l', 'o', 'r' ] (.inl [ 'R', 'e', 'd' ])
          (some .notIn))) := by
  simp only [Constraints.isConditionMet]
  decide

/-- C5 (amended): for a fully-selected axis, `equals`/`not_equals` are
complementary for every target, and `in`/`not_in` are complementary
whenever the target is a list of strings (for a single-string target both
evaluate to `false`). -/
theorem C5_complementary_operator_pairs
    (selection : List VariantSelectionItem) (tv : JsStr)
    (ov : JsStr ⊕ List JsStr) (item : VariantSelectionItem)
    (hsel : selection.find? (fun s => s.typeValue = tv) = some item) :
    (Constraints.isConditionMet selection (.simple tv ov (some .equals)) =
      ! Constraints.isConditionMet selection (.simple tv ov (some .notEquals)))
    ∧ ∀ l : List JsStr, ov = .inr l →
      Constraints.isConditionMet selection (.simple tv ov (some .isIn)) =
        ! Constraints.isConditionMet selection (.simple tv ov (some .notIn)) := by
  constructor
  · simp only [Constraints.isConditionMet, hsel]
    cases ov <;> simp
  · rintro l rfl
    simp [Constraints.isConditionMet, hsel]

/-- C5 witness: the amended complementarity at a concrete selection and
a concrete list target. -/
theorem C5_complementary_operator_pairs_witness :
    (Constraints.isConditionMet [⟨0, 1, [ 'S' ], [ 'M' ]⟩]
        (.simple [ 'S' ] (.inr [[ 'M' ], [ 'L' ]]) (some .equals)) =
      ! Constraints.isConditionMet [⟨0, 1, [ 'S' ], [ 'M' ]⟩]
        (.simple [ 'S' ] (.inr [[ 'M' ], [ 'L' ]]) (some .notEquals)))
    ∧ ∀ l : List JsStr, (Sum.inr [[ 'M' ], [ 'L' ]] : JsStr ⊕ List JsStr) = .inr l →
      Constraints.isConditionMet [⟨0, 1, [ 'S' ], [ 'M' ]⟩]
        (.simple [ 'S' ] (.inr [[ 'M' ], [ 'L' ]]) (some .isIn)) =
        ! Constraints.isConditionMet [⟨0, 1, [ 'S' ], [ 'M' ]⟩]
          (.simple [ 'S' ] (.inr [[ 'M' ], [ 'L' ]]) (some .notIn)) :=
  C5_complementary_operator_pairs [⟨0, 1, [ 'S' ], [ 'M' ]⟩] [ 'S' ]
    (.inr [[ 'M' ], [ 'L' ]]) ⟨0, 1, [ 'S' ], [ 'M' ]⟩ (by decide)

/-- C6: a leaf condition over an unselected axis evaluates to `false`,
and an empty recursive group evaluates to `false` for both `AND` and
`OR`. -/
theorem C6_unselected_false_and_empty_group_false :
    (∀ (selection : List VariantSelectionItem) (tv : JsStr)
        (ov : JsStr ⊕ List JsStr) (opr : Option Constraints.ConstraintOperator),
      selection.find? (fun s => s.typeValue = tv) = none →
      Constraints.isConditionMet selection (.simple tv ov opr) = false)
    ∧ ∀ (selection : List VariantSelectionItem) (g : Constraints.GroupOperator),
      Constraints.isConditionMet selection (.group g []) = false := by
  constructor
  · intro selection tv ov opr h
    simp only [Constraints.isConditionMet, h]
  · intro selection g
    rw [Constraints.isConditionMet.eq_def]
    rfl

/-- C6 witness: the empty selection leaves `Color` unselected, and the
empty `AND`/`OR` groups are false there. -/
theorem C6_unselected_false_and_empty_group_false_witness :
    Constraints.isConditionMet []
        (.simple [ 'C' ] (.inl [ 'R' ]) none) = false
    ∧ Constraints.isConditionMet [] (.group .and []) = false
    ∧ Constraints.isConditionMet [] (.group .or []) = false :=
  ⟨C6_unselected_false_and_empty_group_false.1 [] [ 'C' ] (.inl [ 'R' ]) none (by decide),
   C6_unselected_false_and_empty_group_false.2 [] .and,
   C6_unselected_false_and_empty_group_false.2 [] .or⟩

/-- C7: a constraint whose target axis (`then.typeValue`) is unselected
contributes nothing to `validateSelection` — deleting it from the
constraint list does not change the result — and a selection is valid
exactly when `blockedBy` is empty. -/
theorem C7_unselected_target_never_blocks :
    (∀ (selection : List VariantSelectionItem)
        (cs₁ cs₂ : List Constraints.VariantConstraint)
        (c : Constraints.VariantConstraint),
      selection.find? (fun s => s.typeValue = c.thenEffect.typeValue) = none →
      Constraints.validateSelection selection (cs₁ ++ c :: cs₂) =
        Constraints.validateSelection selection (cs₁ ++ cs₂))
    ∧ ∀ (selection : List VariantSelectionItem)
        (constraints : List Constraints.VariantConstraint),
      (Constraints.validateSelection selection constraints).valid =
        (Constraints.validateSelection selection constraints).blockedBy.isEmpty := by
  constructor
  · intro selection cs₁ cs₂ c h
    have hblock : Constraints.constraintBlocks selection c = false := by
      simp [Constraints.constraintBlocks, h]
    simp only [Constraints.validateSelection, List.filter_append,
      List.filter_cons, hblock]
    simp
  · intro selection constraints
    rfl

/-- C7 witness: a constraint targeting the unselected axis `Size` (with a
satisfied if-condition) is removable without changing the verdict. -/
theorem C7_unselected_target_never_blocks_witness :
    Constraints.validateSelection [⟨0, 1, [ 'C' ], [ 'R' ]⟩]
        ([] ++ ⟨[ 'i', 'd' ], none, .simple [ 'C' ] (.inl [ 'R' ]) none,
          ⟨[ 'S' ], Constraints.allowAction, []⟩⟩ :: []) =
      Constraints.validateSelection [⟨0, 1, [ 'C' ], [ 'R' ]⟩] ([] ++ []) :=
  C7_unselected_target_never_blocks.1 [⟨0, 1, [ 'C' ], [ 'R' ]⟩] [] []
    ⟨[ 'i', 'd' ], none, .simple [ 'C' ] (.inl [ 'R' ]) none,
      ⟨[ 'S' ], Constraints.allowAction, []⟩⟩ (by decide)

/-- C8: the modifier engine is total (every case of the operation matrix
is defined; nothing throws) and realises the field-operation matrix: a
triggered modifier replays its transforms; on a string current value
`add` concatenates the operand as text and `set` replaces it, while
`subtract`/`multiply` are no-ops; on an absent (`null`/`undefined`)
current value `set` and `add` store the raw operand, while
`subtract`/`multiply` are no-ops; a numeric current value with a string
operand, and an array current value, are no-ops. -/
theorem C8_modifier_operation_matrix :
    (∀ (base : Modifiers.ChildRecord) (selection : List VariantSelectionItem)
        (m : Modifiers.VariantModifier),
      Modifiers.isConditionMet selection m.ifCond = true →
      Modifiers.applyModifiers base selection [m] =
        m.thenActions.foldl Modifiers.applyAction base)
    ∧ (∀ (r : Modifiers.ChildRecord) (f : Modifiers.Field)
        (opn : Modifiers.ModifierOperation) (v : JsStr ⊕ ℚ) (s : JsStr),
      r.get f = .str s →
      Modifiers.applyAction r ⟨f, opn, v⟩ =
        match opn with
        | .add => r.set f (.str (s ++ Modifiers.operandToString v))
        | .set => r.set f (.str (Modifiers.operandToString v))
        | _ => r)
    ∧ (∀ (r : Modifiers.ChildRecord) (f : Modifiers.Field)
        (opn : Modifiers.ModifierOperation) (v : JsStr ⊕ ℚ),
      r.get f = .null ∨ r.get f = .undef →
      Modifiers.applyAction r ⟨f, opn, v⟩ =
        match opn with
        | .set => r.set f (Modifiers.operandToValue v)
        | .add => r.set f (Modifiers.operandToValue v)
        | _ => r)
    ∧ (∀ (r : Modifiers.ChildRecord) (f : Modifiers.Field)
        (opn : Modifiers.ModifierOperation) (q : ℚ) (s : JsStr),
      r.get f = .num q →
      Modifiers.applyAction r ⟨f, opn, .inl s⟩ = r)
    ∧ ∀ (r : Modifiers.ChildRecord) (f : Modifiers.Field)
        (opn : Modifiers.ModifierOperation) (v : JsStr ⊕ ℚ) (l : List ℚ),
      r.get f = .numList l →
      Modifiers.applyAction r ⟨f, opn, v⟩ = r := by
  refine ⟨?_, ?_, ?_, ?_, ?_⟩
  · intro base selection m h
    simp [Modifiers.applyModifiers, Modifiers.applyModifier, h]
  · intro r f opn v s h
    cases opn <;> cases v <;> simp only [Modifiers.applyAction, h]
  · intro r f opn v h
    rcases h with h | h <;> cases opn <;> cases v <;>
      simp only [Modifiers.applyAction, h]
  · intro r f opn q s h
    cases opn <;> simp only [Modifiers.applyAction, h]
  · intro r f opn v l h
    cases opn <;> cases v <;> simp only [Modifiers.applyAction, h]

/-- C8 witness: the matrix at concrete inputs — a string `sku` extended
by `add`, an absent `cost` initialized by `add`, and a numeric `cost`
untouched by a string operand. -/
theorem C8_modifier_operation_matrix_witness :
    (Modifiers.ChildRecord.get
        ⟨.str [], .str [], .str [ 'P' ], .num 100, .null, .numList []⟩
        .sku = .str [ 'P' ])
    ∧ Modifiers.applyAction
        ⟨.str [], .str [], .str [ 'P' ], .num 100, .null, .numList []⟩
        ⟨.sku, .add, .inl [ '-', 'X' ]⟩ =
      Modifiers.ChildRecord.set
        ⟨.str [], .str [], .str [ 'P' ], .num 100, .null, .numList []⟩
        .sku (.str ([ 'P' ] ++ Modifiers.operandToString (.inl [ '-', 'X' ])))
    ∧ Modifiers.applyAction
        ⟨.str [], .str [], .str [ 'P' ], .num 100, .null, .numList []⟩
        ⟨.stock, .add, .inr 5⟩ =
      Modifiers.ChildRecord.set
        ⟨.str [], .str [], .str [ 'P' ], .num 100, .null, .numList []⟩
        .stock (Modifiers.operandToValue (.inr 5))
    ∧ Modifiers.applyAction
        ⟨.str [], .str [], .str [ 'P' ], .num 100, .null, .numList []⟩
        ⟨.cost, .add, .inl [ 'Z' ]⟩ =
      ⟨.str [], .str [], .str [ 'P' ], .num 100, .null, .numList []⟩ :=
  ⟨by decide,
   C8_modifier_operation_matrix.2.1
     ⟨.str [], .str [], .str [ 'P' ], .num 100, .null, .numList []⟩
     .sku .add (.inl [ '-', 'X' ]) [ 'P' ] (by decide),
   C8_modifier_operation_matrix.2.2.1
     ⟨.str [], .str [], .str [ 'P' ], .num 100, .null, .numList []⟩
     .stock .add (.inr 5) (Or.inl (by decide)),
   C8_modifier_operation_matrix.2.2.2.1
     ⟨.str [], .str [], .str [ 'P' ], .num 100, .null, .numList []⟩
     .cost .add 100 [ 'Z' ] (by decide)⟩

/-- C9: modifiers are replayed sequentially in list order, each transform
seeing the cumulative record, and the order is observable: for a record
with `cost = 100` and a selection of `Size = X`, the pair
"add 5 then multiply 2" yields `cost = 210` while the swapped order
yields `cost = 205`. -/
theorem C9_modifiers_order_sensitive :
    (∀ (base : Modifiers.ChildRecord) (selection : List VariantSelectionItem)
        (m : Modifiers.VariantModifier) (rest : List Modifiers.VariantModifier),
      Modifiers.applyModifiers base selection (m :: rest) =
        Modifiers.applyModifiers (Modifiers.applyModifier selection base m)
          selection rest)
    ∧ Modifiers.applyModifiers
        ⟨.str [], .str [], .str [], .num 100, .null, .numList []⟩
        [⟨0, 1, [ 'S' ], [ 'X' ]⟩]
        [⟨[ 'a' ], none, ⟨[ 'S' ], .inl [ 'X' ]⟩,
           [⟨.cost, .add, .inr 5⟩]⟩,
         ⟨[ 'b' ], none, ⟨[ 'S' ], .inl [ 'X' ]⟩,
           [⟨.cost, .multiply, .inr 2⟩]⟩] ≠
      Modifiers.applyModifiers
        ⟨.str [], .str [], .str [], .num 100, .null, .numList []⟩
        [⟨0, 1, [ 'S' ], [ 'X' ]⟩]
        [⟨[ 'b' ], none, ⟨[ 'S' ], .inl [ 'X' ]⟩,
           [⟨.cost, .multiply, .inr 2⟩]⟩,
         ⟨[ 'a' ], none, ⟨[ 'S' ], .inl [ 'X' ]⟩,
           [⟨.cost, .add, .inr 5⟩]⟩] := by
  constructor
  · intro base selection m rest
    rfl
  · with_unfolding_all decide

/-! ## Key-codec lemmas: split/join and decimal round-trips -/

theorem splitOnChar_ne_nil (c : Char) (s : JsStr) : splitOnChar c s ≠ [] := by
  induction s with
  | nil => simp [splitOnChar]
  | cons a rest ih =>
    simp only [splitOnChar]
    split
    · simp
    · split <;> simp

theorem splitOnChar_no_sep {c : Char} {p : JsStr} (h : c ∉ p) :
    splitOnChar c p = [p] := by
  induction p with
  | nil => rfl
  | cons a rest ih =>
    have ha : a ≠ c := fun hac => h (hac ▸ List.mem_cons_self a rest)
    have hr : c ∉ rest := fun hc => h (List.mem_cons_of_mem a hc)
    simp only [splitOnChar, if_neg ha, ih hr]

theorem splitOnChar_append_sep {c : Char} {p rest : JsStr} (h : c ∉ p) :
    splitOnChar c (p ++ c :: rest) = p :: splitOnChar c rest := by
  induction p with
  | nil => simp [splitOnChar]
  | cons a p' ih =>
    have ha : a ≠ c := fun hac => h (hac ▸ List.mem_cons_self a p')
    have hp : c ∉ p' := fun hc => h (List.mem_cons_of_mem a hc)
    simp only [List.cons_append, splitOnChar, if_neg ha, List.append_eq, ih hp]

theorem splitOnChar_joinWithChar {c : Char} {parts : List JsStr}
    (h : ∀ p ∈ parts, c ∉ p) (hne : parts ≠ []) :
    splitOnChar c (joinWithChar c parts) = parts := by
  induction parts with
  | nil => exact absurd rfl hne
  | cons p ps ih =>
    cases ps with
    | nil =>
      simp only [joinWithChar]
      exact splitOnChar_no_sep (h p (List.mem_cons_self p []))
    | cons q qs =>
      have hj : joinWithChar c (p :: q :: qs) = p ++ c :: joinWithChar c (q :: qs) := rfl
      rw [hj, splitOnChar_append_sep (h p (List.mem_cons_self p _)),
        ih (fun r hr => h r (List.mem_cons_of_mem p hr)) (by simp)]

theorem joinWithChar_ne_nil {c : Char} {p : JsStr} {ps : List JsStr}
    (hp : p ≠ []) : joinWithChar c (p :: ps) ≠ [] := by
  cases ps with
  | nil => exact hp
  | cons q qs =>
    have hj : joinWithChar c (p :: q :: qs) = p ++ c :: joinWithChar c (q :: qs) := rfl
    rw [hj]
    simp [hp]

theorem digitChar_isDigit {d : ℕ} (h : d < 10) :
    (Nat.digitChar d).isDigit = true := by
  interval_cases d <;> decide

theorem digitVal_digitChar {d : ℕ} (h : d < 10) :
    digitVal (Nat.digitChar d) = d := by
  interval_cases d <;> decide

theorem natToCharsAux_digits (fuel : ℕ) :
    ∀ n, ∀ c ∈ natToCharsAux fuel n, c.isDigit = true := by
  induction fuel with
  | zero => intro n c hc; simp [natToCharsAux] at hc
  | succ fuel ih =>
    intro n c hc
    simp only [natToCharsAux] at hc
    split at hc
    · simp at hc
    · rcases List.mem_append.1 hc with hmem | hmem
      · exact ih _ c hmem
      · rw [List.mem_singleton.1 hmem]
        exact digitChar_isDigit (Nat.mod_lt _ (by omega))

theorem natToCharsAux_ne_nil {fuel n : ℕ} (hn : n ≠ 0) (hf : fuel ≠ 0) :
    natToCharsAux fuel n ≠ [] := by
  cases fuel with
  | zero => exact absurd rfl hf
  | succ fuel => simp [natToCharsAux, hn]

theorem foldl_natToCharsAux (fuel : ℕ) :
    ∀ n acc, n ≤ fuel →
      List.foldl (fun a c => 10 * a + digitVal c) acc (natToCharsAux fuel n) =
        acc * 10 ^ (natToCharsAux fuel n).length + n := by
  induction fuel with
  | zero =>
    intro n acc hn
    interval_cases n
    simp [natToCharsAux]
  | succ fuel ih =>
    intro n acc hn
    by_cases hz : n = 0
    · simp [natToCharsAux, hz]
    · have hdiv : n / 10 ≤ fuel := by omega
      simp only [natToCharsAux, if_neg hz, List.foldl_append, List.length_append,
        ih (n / 10) acc hdiv, List.foldl_cons, List.foldl_nil,
        digitVal_digitChar (Nat.mod_lt n (by omega)), List.length_cons,
        List.length_nil]
      have : acc * 10 ^ ((natToCharsAux fuel (n / 10)).length + (0 + 1)) =
          (acc * 10 ^ (natToCharsAux fuel (n / 10)).length) * 10 := by ring
      rw [this]
      omega

theorem digitsToNat_natToChars (n : ℕ) : digitsToNat (natToChars n) = n := by
  by_cases hz : n = 0
  · subst hz; decide
  · simp only [natToChars, if_neg hz, digitsToNat]
    rw [foldl_natToCharsAux n n 0 le_rfl]
    simp

theorem natToChars_digits (n : ℕ) : ∀ c ∈ natToChars n, c.isDigit = true := by
  by_cases hz : n = 0
  · subst hz; intro c hc; simp [natToChars] at hc; subst hc; decide
  · simp only [natToChars, if_neg hz]
    exact natToCharsAux_digits n n

theorem natToChars_ne_nil (n : ℕ) : natToChars n ≠ [] := by
  by_cases hz : n = 0
  · subst hz; decide
  · simp only [natToChars, if_neg hz]
    exact natToCharsAux_ne_nil hz hz

theorem jsTrim_of_no_ws {s : JsStr} (h : ∀ c ∈ s, isWsChar c = false) :
    jsTrim s = s := by
  have hdrop : ∀ (t : JsStr), (∀ c ∈ t, isWsChar c = false) →
      t.dropWhile isWsChar = t := by
    intro t ht
    cases t with
    | nil => rfl
    | cons a t' =>
      rw [List.dropWhile_cons_of_neg]
      simp [ht a (List.mem_cons_self a t')]
  rw [jsTrim, hdrop s h, hdrop s.reverse (fun c hc => h c (List.mem_reverse.1 hc)),
    List.reverse_reverse]

theorem isDigit_not_ws {c : Char} (h : c.isDigit = true) : isWsChar c = false := by
  by_contra hw
  have hw' : isWsChar c = true := by
    cases hval : isWsChar c
    · exact absurd hval hw
    · rfl
  simp only [isWsChar, Bool.or_eq_true, decide_eq_true_eq] at hw'
  rcases hw' with ((h1 | h1) | h1) | h1 <;> subst h1 <;> simp at h

theorem isDigit_ne_hyphen {c : Char} (h : c.isDigit = true) : c ≠ '-' := by
  intro hc; subst hc; simp at h

theorem isDigit_ne_plus {c : Char} (h : c.isDigit = true) : c ≠ '+' := by
  intro hc; subst hc; simp at h

theorem parseUnsignedQ_digits {s : JsStr} (hne : s ≠ [])
    (h : ∀ c ∈ s, c.isDigit = true) :
    parseUnsignedQ s = some (digitsToNat s : ℚ) := by
  have htake : s.takeWhile Char.isDigit = s := List.takeWhile_eq_self_iff.2 h
  simp only [parseUnsignedQ, htake, List.drop_length, List.isEmpty_iff, hne,
    if_neg]
  simp [hne]

theorem jsNumberOpt_digits {s : JsStr} (hne : s ≠ [])
    (h : ∀ c ∈ s, c.isDigit = true) :
    jsNumberOpt s = some (digitsToNat s : ℚ) := by
  have htrim : jsTrim s = s :=
    jsTrim_of_no_ws fun c hc => isDigit_not_ws (h c hc)
  obtain ⟨c, rest, rfl⟩ := List.exists_cons_of_ne_nil hne
  have hc : c.isDigit = true := h c (List.mem_cons_self c rest)
  simp only [jsNumberOpt, htrim, if_neg (isDigit_ne_hyphen hc),
    if_neg (isDigit_ne_plus hc)]
  exact parseUnsignedQ_digits hne h

theorem parseVariantKey_toVariantKey (l : List ℕ) :
    parseVariantKey (toVariantKey l '-') '-' = l.map fun n : ℕ => (n : ℚ) := by
  cases l with
  | nil => rfl
  | cons n ns =>
    have hjoin : toVariantKey (n :: ns) '-' ≠ [] :=
      joinWithChar_ne_nil (natToChars_ne_nil n)
    have hnosep : ∀ p ∈ (n :: ns).map natToChars, '-' ∉ p := by
      intro p hp hdash
      obtain ⟨m, _, rfl⟩ := List.mem_map.1 hp
      exact absurd rfl (isDigit_ne_hyphen (natToChars_digits m '-' hdash))
    rw [parseVariantKey, if_neg hjoin, toVariantKey,
      splitOnChar_joinWithChar hnosep (by simp), List.map_map]
    apply List.map_congr_left
    intro m _
    simp only [Function.comp_apply,
      jsNumberOpt_digits (natToChars_ne_nil m) (natToChars_digits m),
      digitsToNat_natToChars]

/-! ## Comparator lemmas -/

theorem keyCmp_self (l : List ℚ) : keyCmp l l = 0 := by
  induction l with
  | nil => simp [keyCmp]
  | cons a as ih => simp [keyCmp, ih]

theorem keyCmp_neg_of_idxLt :
    ∀ {x y : List ℕ}, x.length = y.length → idxLtB x y = true →
      keyCmp (x.map fun n : ℕ => (n : ℚ)) (y.map fun n : ℕ => (n : ℚ)) < 0 := by
  intro x
  induction x with
  | nil => intro y _ h; simp [idxLtB] at h
  | cons a as ih =>
    intro y hlen h
    cases y with
    | nil => simp [idxLtB] at h
    | cons b bs =>
      simp only [idxLtB, Bool.or_eq_true, Bool.and_eq_true, decide_eq_true_eq] at h
      rcases h with hab | ⟨hab, hrec⟩
      · have hne : (a : ℚ) ≠ (b : ℚ) := by
          exact_mod_cast Nat.ne_of_lt hab
        simp only [List.map_cons, keyCmp, if_pos hne]
        have : (a : ℚ) < (b : ℚ) := by exact_mod_cast hab
        linarith
      · subst hab
        simp only [List.map_cons, keyCmp, ite_not, if_pos rfl]
        exact ih (by simpa using hlen) hrec

/-! ## Cartesian-product lemmas -/

theorem cartesianIndexProduct_takeWhile (counts : List ℕ) :
    cartesianIndexProduct counts =
      cartesianIndexProduct (counts.takeWhile fun c => c ≠ 0) := by
  induction counts with
  | nil => rfl
  | cons c rest ih =>
    by_cases hc : c = 0
    · subst hc
      simp [cartesianIndexProduct, List.takeWhile_cons]
    · have ht : (c :: rest).takeWhile (fun c => decide (c ≠ 0)) =
          c :: rest.takeWhile (fun c => decide (c ≠ 0)) := by
        simp [List.takeWhile_cons, hc]
      rw [ht]
      simp only [cartesianIndexProduct, if_neg hc, ih]

theorem flatMap_singleton_eq_map (l : List ℕ) :
    (l.flatMap fun i => [[i]]) = l.map fun i => [i] := by
  induction l with
  | nil => rfl
  | cons a l ih => simp [List.flatMap_cons, ih]

theorem cartesianIndexProduct_cons_ne {c : ℕ} {rest : List ℕ} (hc : c ≠ 0)
    (hr : (cartesianIndexProduct rest).length ≠ 0) :
    cartesianIndexProduct (c :: rest) =
      (List.range' 1 c).flatMap fun idx =>
        (cartesianIndexProduct rest).map fun combo => idx :: combo := by
  conv_lhs => rw [cartesianIndexProduct]
  rw [if_neg hc]
  exact List.flatMap_congr fun idx _ => if_pos hr

theorem cartesianIndexProduct_cons_nil {c : ℕ} {rest : List ℕ} (hc : c ≠ 0)
    (hr : (cartesianIndexProduct rest).length = 0) :
    cartesianIndexProduct (c :: rest) = (List.range' 1 c).map fun i => [i] := by
  conv_lhs => rw [cartesianIndexProduct]
  rw [if_neg hc, ← flatMap_singleton_eq_map]
  exact List.flatMap_congr fun idx _ => by rw [if_neg (by omega)]

theorem cartesianIndexProduct_length_of_pos {counts : List ℕ}
    (hpos : ∀ c ∈ counts, c ≠ 0) (hne : counts ≠ []) :
    (cartesianIndexProduct counts).length = counts.prod := by
  induction counts with
  | nil => exact absurd rfl hne
  | cons c rest ih =>
    have hc : c ≠ 0 := hpos c (List.mem_cons_self c rest)
    cases rest with
    | nil =>
      rw [cartesianIndexProduct_cons_nil hc (by simp [cartesianIndexProduct])]
      simp
    | cons c' rest' =>
      have hrec := ih (fun d hd => hpos d (List.mem_cons_of_mem c hd)) (by simp)
      have hrpos : (cartesianIndexProduct (c' :: rest')).length ≠ 0 := by
        rw [hrec]
        have := List.prod_pos fun d hd =>
          Nat.pos_of_ne_zero (hpos d (List.mem_cons_of_mem c hd))
        omega
      rw [cartesianIndexProduct_cons_ne hc hrpos, List.length_flatMap]
      simp [Function.comp_def, List.map_const', List.sum_replicate, hrec,
        Nat.mul_comm]

theorem cartesianIndexProduct_mem_length_of_pos {counts : List ℕ}
    (hpos : ∀ c ∈ counts, c ≠ 0) :
    ∀ x ∈ cartesianIndexProduct counts, x.length = counts.length := by
  induction counts with
  | nil => intro x hx; simp [cartesianIndexProduct] at hx
  | cons c rest ih =>
    intro x hx
    have hc : c ≠ 0 := hpos c (List.mem_cons_self c rest)
    have hposr : ∀ d ∈ rest, d ≠ 0 := fun d hd => hpos d (List.mem_cons_of_mem c hd)
    by_cases hr : (cartesianIndexProduct rest).length = 0
    · have hrest : rest = [] := by
        cases rest with
        | nil => rfl
        | cons c' rest' =>
          rw [cartesianIndexProduct_length_of_pos hposr (by simp)] at hr
          have := List.prod_pos fun d hd => Nat.pos_of_ne_zero (hposr d hd)
          omega
      subst hrest
      rw [cartesianIndexProduct_cons_nil hc (by simp [cartesianIndexProduct])] at hx
      obtain ⟨i, _, rfl⟩ := List.mem_map.1 hx
      rfl
    · rw [cartesianIndexProduct_cons_ne hc hr] at hx
      simp only [List.mem_flatMap] at hx
      obtain ⟨i, _, hx⟩ := hx
      obtain ⟨combo, hcombo, rfl⟩ := List.mem_map.1 hx
      simp [ih hposr combo hcombo]

theorem cartesianIndexProduct_pairwise_idxLt (counts : List ℕ) :
    (cartesianIndexProduct counts).Pairwise fun x y => idxLtB x y = true := by
  induction counts with
  | nil => simp [cartesianIndexProduct]
  | cons c rest ih =>
    by_cases hc : c = 0
    · simp [cartesianIndexProduct, hc]
    · by_cases hr : (cartesianIndexProduct rest).length = 0
      · rw [cartesianIndexProduct_cons_nil hc hr, List.pairwise_map]
        exact (List.pairwise_lt_range' 1 c).imp fun hij => by
          simp only [idxLtB, Bool.or_eq_true, decide_eq_true_eq]
          exact Or.inl hij
      · rw [cartesianIndexProduct_cons_ne hc hr, List.flatMap_def,
          List.pairwise_flatten]
        constructor
        · intro piece hpiece
          obtain ⟨i, _, rfl⟩ := List.mem_map.1 hpiece
          rw [List.pairwise_map]
          exact ih.imp fun hxy => by simp [idxLtB, hxy]
        · rw [List.pairwise_map]
          exact (List.pairwise_lt_range' 1 c).imp fun hij => by
            intro x hx y hy
            obtain ⟨x', _, rfl⟩ := List.mem_map.1 hx
            obtain ⟨y', _, rfl⟩ := List.mem_map.1 hy
            simp only [idxLtB, Bool.or_eq_true, decide_eq_true_eq]
            exact Or.inl hij

theorem cartesianIndexProduct_pairwise_keyCmp (counts : List ℕ) :
    (cartesianIndexProduct counts).Pairwise fun x y =>
      keyCmp (x.map fun n : ℕ => (n : ℚ)) (y.map fun n : ℕ => (n : ℚ)) < 0 := by
  have hlen : ∀ x ∈ cartesianIndexProduct counts,
      x.length = (counts.takeWhile fun c => c ≠ 0).length := by
    intro x hx
    rw [cartesianIndexProduct_takeWhile] at hx
    exact cartesianIndexProduct_mem_length_of_pos
      (fun d hd => by simpa using List.mem_takeWhile_imp hd) x hx
  exact (cartesianIndexProduct_pairwise_idxLt counts).imp_of_mem
    fun hx hy hR => keyCmp_neg_of_idxLt (by rw [hlen _ hx, hlen _ hy]) hR

/-! ## Generator lemmas -/

theorem buildChild_variantKey {opts : GenerateChildVariantsOptions} {key : JsStr}
    (hcd : ∀ f, opts.createDefault = some f → ∀ k, (f k).variantKey = k) :
    (buildChild opts key).variantKey = key := by
  cases hfind : opts.existing.reverse.find? fun c => c.variantKey = key with
  | some c =>
    have := List.find?_some hfind
    simp only [buildChild, hfind]
    simpa using this
  | none =>
    cases hcdf : opts.createDefault with
    | some f => simp only [buildChild, hfind, hcdf]; exact hcd f hcdf key
    | none => simp only [buildChild, hfind, hcdf, defaultChild]

theorem generateChildVariants_unfiltered (variantTypes : List VariantType)
    (opts : GenerateChildVariantsOptions)
    (hsep : opts.keySeparator = '-')
    (hfil : opts.filterInvalidTitles = false)
    (hcd : ∀ f, opts.createDefault = some f → ∀ k, (f k).variantKey = k) :
    generateChildVariants variantTypes opts =
      (cartesianIndexProduct (variantTypes.map fun t => t.variantOptions.length)).map
        fun indices => buildChild opts (toVariantKey indices opts.keySeparator) := by
  have hkey : ∀ indices : List ℕ,
      (buildChild opts (toVariantKey indices opts.keySeparator)).variantKey =
        toVariantKey indices opts.keySeparator := fun _ => buildChild_variantKey hcd
  have hsorted :
      ((cartesianIndexProduct (variantTypes.map fun t => t.variantOptions.length)).map
        fun indices => buildChild opts (toVariantKey indices opts.keySeparator)).Pairwise
          fun x y =>
            (decide (sortVariantKeysAsc x.variantKey y.variantKey opts.keySeparator ≤ 0)) =
              true := by
    rw [List.pairwise_map]
    apply (cartesianIndexProduct_pairwise_keyCmp
      (variantTypes.map fun t => t.variantOptions.length)).imp
    intro x y h
    rw [hkey, hkey, hsep, sortVariantKeysAsc, parseVariantKey_toVariantKey,
      parseVariantKey_toVariantKey]
    simp [le_of_lt h]
  simp only [generateChildVariants, hfil, Bool.not_false, if_true]
  exact List.mergeSort_of_sorted hsorted

/-- C2 counterexample: `Color` has two options and `Size` has zero, yet
`generateChildVariants` (unfiltered) produces two children (keys `"1"` and
`"2"`), not zero — the zero-option axis truncates instead of collapsing. -/
theorem C2_counterexample :
    (generateChildVariants
        [⟨[ 'C' ], [⟨[ 'R' ]⟩, ⟨[ 'B' ]⟩]⟩, ⟨[ 'S' ], []⟩]
        { existing := [], createDefault := none, filterInvalidTitles := false,
          labelSeparator := [' ', '-', ' '], keySeparator := '-' }).length = 2 := by
  rw [generateChildVariants_unfiltered _ _ rfl rfl (fun f h => by cases h)]
  decide

/-- C2 (amended): a zero-option axis truncates the enumeration rather than
emptying it: the index product only covers the longest prefix of axes with
at least one option, and when the FIRST axis has zero options the
generator returns no children. -/
theorem C2_zero_axis_truncates :
    (∀ counts : List ℕ,
      cartesianIndexProduct counts =
        cartesianIndexProduct (counts.takeWhile fun c => c ≠ 0))
    ∧ ∀ (t : VariantType) (rest : List VariantType)
        (opts : GenerateChildVariantsOptions),
        t.variantOptions = [] →
        generateChildVariants (t :: rest) opts = [] := by
  refine ⟨cartesianIndexProduct_takeWhile, fun t rest opts h => ?_⟩
  simp [generateChildVariants, cartesianIndexProduct, h]

/-- C2 witness: the truncation equation at counts `[2,0,3]` and the
empty result for a leading zero-option axis. -/
theorem C2_zero_axis_truncates_witness :
    (cartesianIndexProduct [2, 0, 3] =
      cartesianIndexProduct ([2, 0, 3].takeWhile fun c => c ≠ 0))
    ∧ generateChildVariants [⟨[ 'S' ], []⟩] defaultGenerateOptions = [] :=
  ⟨C2_zero_axis_truncates.1 [2, 0, 3],
   C2_zero_axis_truncates.2 ⟨[ 'S' ], []⟩ [] defaultGenerateOptions rfl⟩

/-- C3 counterexample: with option counts `[2,0]` the unfiltered generator
returns `2` children while the full product `c1*c2` is `0`, so the claim
fails when some axis has zero options. -/
theorem C3_counterexample :
    (generateChildVariants
        [⟨[ 'C' ], [⟨[ 'R' ]⟩, ⟨[ 'B' ]⟩]⟩, ⟨[ 'S' ], []⟩]
        { existing := [], createDefault := none, filterInvalidTitles := false,
          labelSeparator := [' ', '-', ' '], keySeparator := '-' }).length ≠
      ([⟨[ 'C' ], [⟨[ 'R' ]⟩, ⟨[ 'B' ]⟩]⟩, (⟨[ 'S' ], []⟩ : VariantType)].map
        fun t => t.variantOptions.length).prod := by
  rw [generateChildVariants_unfiltered _ _ rfl rfl (fun f h => by cases h)]
  decide

/-- C3 (amended): for non-empty `variantTypes` in which every axis has at
least one option, the unfiltered generator returns exactly `∏ ci`
children, with pairwise-distinct keys, in strictly ascending
`sortVariantKeysAsc` order. -/
theorem C3_generate_unfiltered_product (variantTypes : List VariantType)
    (opts : GenerateChildVariantsOptions)
    (hne : variantTypes ≠ [])
    (hpos : ∀ t ∈ variantTypes, t.variantOptions ≠ [])
    (hsep : opts.keySeparator = '-')
    (hfil : opts.filterInvalidTitles = false)
    (hcd : opts.createDefault = none) :
    (generateChildVariants variantTypes opts).length =
      (variantTypes.map fun t => t.variantOptions.length).prod
    ∧ ((generateChildVariants variantTypes opts).map fun c => c.variantKey).Nodup
    ∧ ((generateChildVariants variantTypes opts).map fun c => c.variantKey).Pairwise
        fun a b => sortVariantKeysAsc a b '-' < 0 := by
  have hcd' : ∀ f, opts.createDefault = some f → ∀ k, (f k).variantKey = k := by
    intro f h
    rw [hcd] at h
    cases h
  have hkey : ∀ indices : List ℕ,
      (buildChild opts (toVariantKey indices opts.keySeparator)).variantKey =
        toVariantKey indices opts.keySeparator := fun _ => buildChild_variantKey hcd'
  rw [generateChildVariants_unfiltered _ _ hsep hfil hcd']
  have hposc : ∀ c ∈ variantTypes.map fun t => t.variantOptions.length, c ≠ 0 := by
    intro c hcmem
    obtain ⟨t, ht, rfl⟩ := List.mem_map.1 hcmem
    simpa using hpos t ht
  have hnec : (variantTypes.map fun t => t.variantOptions.length) ≠ [] := by
    simpa using hne
  have hpw : (((cartesianIndexProduct
      (variantTypes.map fun t => t.variantOptions.length)).map
        fun indices => buildChild opts (toVariantKey indices opts.keySeparator)).map
          fun c => c.variantKey).Pairwise fun a b => sortVariantKeysAsc a b '-' < 0 := by
    rw [List.map_map, List.pairwise_map]
    apply (cartesianIndexProduct_pairwise_keyCmp
      (variantTypes.map fun t => t.variantOptions.length)).imp
    intro x y h
    simp only [Function.comp_apply]
    rw [hkey x, hkey y, hsep]
    simp only [sortVariantKeysAsc, parseVariantKey_toVariantKey]
    exact h
  refine ⟨?_, ?_, hpw⟩
  · rw [List.length_map]
    exact cartesianIndexProduct_length_of_pos hposc hnec
  · exact hpw.imp fun {a b} hlt heq => by
      subst heq
      rw [sortVariantKeysAsc, keyCmp_self] at hlt
      exact absurd hlt (lt_irrefl 0)

/-- C3 witness: the amended statement at `Color:{R,B} × Size:{S,M}` —
four children, distinct keys, ascending order. -/
theorem C3_generate_unfiltered_product_witness :
    (generateChildVariants
        [⟨[ 'C' ], [⟨[ 'R' ]⟩, ⟨[ 'B' ]⟩]⟩, ⟨[ 'S' ], [⟨[ 's' ]⟩, ⟨[ 'm' ]⟩]⟩]
        { existing := [], createDefault := none, filterInvalidTitles := false,
          labelSeparator := [' ', '-', ' '], keySeparator := '-' }).length =
      ([⟨[ 'C' ], [⟨[ 'R' ]⟩, ⟨[ 'B' ]⟩]⟩,
        (⟨[ 'S' ], [⟨[ 's' ]⟩, ⟨[ 'm' ]⟩]⟩ : VariantType)].map
          fun t => t.variantOptions.length).prod
    ∧ ((generateChildVariants
        [⟨[ 'C' ], [⟨[ 'R' ]⟩, ⟨[ 'B' ]⟩]⟩, ⟨[ 'S' ], [⟨[ 's' ]⟩, ⟨[ 'm' ]⟩]⟩]
        { existing := [], createDefault := none, filterInvalidTitles := false,
          labelSeparator := [' ', '-', ' '], keySeparator := '-' }).map
          fun c => c.variantKey).Nodup
    ∧ ((generateChildVariants
        [⟨[ 'C' ], [⟨[ 'R' ]⟩, ⟨[ 'B' ]⟩]⟩, ⟨[ 'S' ], [⟨[ 's' ]⟩, ⟨[ 'm' ]⟩]⟩]
        { existing := [], createDefault := none, filterInvalidTitles := false,
          labelSeparator := [' ', '-', ' '], keySeparator := '-' }).map
          fun c => c.variantKey).Pairwise
        fun a b => sortVariantKeysAsc a b '-' < 0 :=
  C3_generate_unfiltered_product
    [⟨[ 'C' ], [⟨[ 'R' ]⟩, ⟨[ 'B' ]⟩]⟩, ⟨[ 'S' ], [⟨[ 's' ]⟩, ⟨[ 'm' ]⟩]⟩]
    { existing := [], createDefault := none, filterInvalidTitles := false,
      labelSeparator := [' ', '-', ' '], keySeparator := '-' }
    (by decide) (by decide) rfl rfl rfl

/-- C10 counterexample: the segment `"1.5"` parses to the finite,
non-integral number `3/2` (a rational with denominator `2`, not an
integer), so `parseVariantKey` does not return an integer per segment. -/
theorem C10_counterexample :
    parseVariantKey [ '1', '.', '5' ] '-' = [(3 : ℚ) / 2]
    ∧ ((3 : ℚ) / 2).den ≠ 1 := by
  with_unfolding_all decide

/-- C10 (amended): the key codec is total — `parseVariantKey` returns one
number per separator-delimited segment, any segment whose parse is not a
finite number yields `0` (finite non-integral parses such as `"1.5"` are
kept as parsed), and `variantKeyToSelection` resolves every missing type
or option lookup to the empty string. -/
theorem C10_key_codec_total :
    (∀ (s : JsStr) (sep : Char),
      (parseVariantKey s sep).length =
        if s = [] then 0 else (splitOnChar sep s).length)
    ∧ (∀ (s : JsStr) (sep : Char) (i : ℕ) (seg : JsStr), s ≠ [] →
        (splitOnChar sep s)[i]? = some seg → jsNumberOpt seg = none →
        (parseVariantKey s sep)[i]? = some 0)
    ∧ ∀ (key : JsStr) (variantTypes : List VariantType) (sep : Char) (i : ℕ)
        (item : VariantSelectionItem),
        (variantKeyToSelection key variantTypes sep)[i]? = some item →
        (variantTypes[i]? = none → item.typeValue = [] ∧ item.optionValue = [])
        ∧ ∀ t, variantTypes[i]? = some t →
            item.typeValue = t.value ∧
            (listGetQ t.variantOptions (item.optionIndex1Based - 1) = none →
              item.optionValue = []) := by
  refine ⟨?_, ?_, ?_⟩
  · intro s sep
    by_cases hs : s = []
    · simp [parseVariantKey, hs]
    · simp [parseVariantKey, hs]
  · intro s sep i seg hs hseg hnone
    simp [parseVariantKey, hs, List.getElem?_map, hseg, hnone]
  · intro key variantTypes sep i item hitem
    rw [variantKeyToSelection, List.getElem?_map, List.getElem?_enum] at hitem
    cases hq : (parseVariantKey key sep)[i]? with
    | none => rw [hq] at hitem; simp at hitem
    | some q =>
      rw [hq] at hitem
      simp only [Option.map_some', Option.some.injEq] at hitem
      subst hitem
      constructor
      · intro hnone
        simp [hnone]
      · intro t ht
        refine ⟨by simp [ht], fun hopt => ?_⟩
        simp only [ht] at hopt ⊢
        simp [hopt]

/-- C10 witness: the amended totality at concrete inputs — the malformed
key `"a-3"` parses its non-numeric first segment to `0`, and a key over an
empty type list resolves the missing type lookup to empty strings. -/
theorem C10_key_codec_total_witness :
    (parseVariantKey [ 'a', '-', '3' ] '-')[0]? = some 0
    ∧ (variantKeyToSelection [ '5' ] [] '-')[0]? =
        some ⟨0, (5 : ℚ), [], []⟩
    ∧ (([] : List VariantType)[0]? = none →
        (⟨0, (5 : ℚ), [], []⟩ : VariantSelectionItem).typeValue = []
        ∧ (⟨0, (5 : ℚ), [], []⟩ : VariantSelectionItem).optionValue = []) :=
  ⟨C10_key_codec_total.2.1 [ 'a', '-', '3' ] '-' 0 [ 'a' ]
      (by decide) (by with_unfolding_all decide) (by with_unfolding_all decide),
   by with_unfolding_all decide,
   (C10_key_codec_total.2.2 [ '5' ] [] '-' 0 ⟨0, (5 : ℚ), [], []⟩
      (by with_unfolding_all decide)).1⟩

/-! ## Reconciler lemmas -/

theorem reconcileChildVariants_unfiltered (previousVariantTypes nextVariantTypes : List VariantType)
    (opts : ReconcileChildVariantsOptions)
    (hsep : opts.keySeparator = '-')
    (hfil : opts.filterInvalidTitles = false)
    (hcd : opts.createDefault = none) :
    reconcileChildVariants previousVariantTypes nextVariantTypes opts =
      (let sigPrev := childSignature previousVariantTypes opts
       let sigNext := fun key : JsStr =>
         toSignature (variantKeyToValues key nextVariantTypes opts.keySeparator)
           opts.caseInsensitiveMatch opts.trimMatch
       let generated := (cartesianIndexProduct
           (nextVariantTypes.map fun t => t.variantOptions.length)).map
             fun indices => defaultChild (toVariantKey indices '-')
       let children := generated.map fun child =>
         match opts.existing.find? fun r => sigPrev r = sigNext child.variantKey with
         | some prev => { prev with variantKey := child.variantKey }
         | none => child
       let usedSignatures := generated.filterMap fun child =>
         if (opts.existing.find? fun r => sigPrev r = sigNext child.variantKey).isSome
         then some (sigNext child.variantKey) else none
       { children := children,
         dropped := opts.existing.filter fun c =>
           !(usedSignatures.contains (sigPrev c)) }) := by
  have hgen : generateChildVariants nextVariantTypes
      { existing := []
        createDefault := some fun variantKey =>
          match opts.createDefault with
          | some create => create variantKey
          | none => defaultChild variantKey
        filterInvalidTitles := opts.filterInvalidTitles
        labelSeparator := opts.labelSeparator
        keySeparator := opts.keySeparator } =
      (cartesianIndexProduct (nextVariantTypes.map fun t => t.variantOptions.length)).map
        fun indices => defaultChild (toVariantKey indices '-') := by
    rw [generateChildVariants_unfiltered _ _ (by simpa) (by simpa)
      (fun f h k => by
        obtain rfl := Option.some.inj h
        simp [hcd, defaultChild])]
    apply List.map_congr_left
    intro idx _
    simp [buildChild, hcd, hsep]
  simp only [reconcileChildVariants, hgen]

/-- C1: evaluation of `reconcileChildVariants` at the spec's own example —
previous types `[Color:{Red,Blue}, Size:{S,M}]` with an existing record
for key `"1-2"` (Red, M) carrying `sku = "RM"`, next types (axis
`Material:{Wood}` inserted at position 0) `[Material, Color, Size]`.  The
record's signature `"Red␁M"` can never equal a three-value signature
`"Wood␁Red␁M"`, so the record is reported in `dropped` and every child of
the result carries the default empty `sku` — the circled preservation
claim fails on this input. -/
theorem C1_insert_axis_drops_record :
    (reconcileChildVariants
        [⟨[ 'C' ], [⟨[ 'R', 'e', 'd' ]⟩, ⟨[ 'B' ]⟩]⟩,
         ⟨[ 'S' ], [⟨[ 's' ]⟩, ⟨[ 'M' ]⟩]⟩]
        [⟨[ 'M', 'a', 't' ], [⟨[ 'W' ]⟩]⟩,
         ⟨[ 'C' ], [⟨[ 'R', 'e', 'd' ]⟩, ⟨[ 'B' ]⟩]⟩,
         ⟨[ 'S' ], [⟨[ 's' ]⟩, ⟨[ 'M' ]⟩]⟩]
        { existing := [⟨[ '1', '-', '2' ], [], [ 'R', 'M' ], none, none, []⟩],
          createDefault := none, labelSeparator := [' ', '-', ' '],
          keySeparator := '-', filterInvalidTitles := false,
          caseInsensitiveMatch := false, trimMatch := true }).dropped =
      [⟨[ '1', '-', '2' ], [], [ 'R', 'M' ], none, none, []⟩]
    ∧ (reconcileChildVariants
        [⟨[ 'C' ], [⟨[ 'R', 'e', 'd' ]⟩, ⟨[ 'B' ]⟩]⟩,
         ⟨[ 'S' ], [⟨[ 's' ]⟩, ⟨[ 'M' ]⟩]⟩]
        [⟨[ 'M', 'a', 't' ], [⟨[ 'W' ]⟩]⟩,
         ⟨[ 'C' ], [⟨[ 'R', 'e', 'd' ]⟩, ⟨[ 'B' ]⟩]⟩,
         ⟨[ 'S' ], [⟨[ 's' ]⟩, ⟨[ 'M' ]⟩]⟩]
        { existing := [⟨[ '1', '-', '2' ], [], [ 'R', 'M' ], none, none, []⟩],
          createDefault := none, labelSeparator := [' ', '-', ' '],
          keySeparator := '-', filterInvalidTitles := false,
          caseInsensitiveMatch := false, trimMatch := true }).children.all
        (fun c => c.sku = []) = true := by
  rw [reconcileChildVariants_unfiltered _ _ _ rfl rfl rfl]
  constructor
  · with_unfolding_all decide
  · with_unfolding_all decide

/-- What the reconciler does guarantee: if some generated combination key
`k` has the same value signature under `nextVariantTypes` as an existing
record `r` has under `previousVariantTypes` — and `r` is the first such
record (the first-wins signature map) — then the result carries `r`'s
whole field set under `variantKey = k`, and `r` is not dropped. -/
theorem reconcile_preserves_on_signature_match
    (previousVariantTypes nextVariantTypes : List VariantType)
    (opts : ReconcileChildVariantsOptions)
    (hsep : opts.keySeparator = '-')
    (hfil : opts.filterInvalidTitles = false)
    (hcd : opts.createDefault = none)
    (r : ChildVariant) (k : JsStr)
    (hk : k ∈ (cartesianIndexProduct
        (nextVariantTypes.map fun t => t.variantOptions.length)).map
          fun indices => toVariantKey indices '-')
    (hfind : (opts.existing.find? fun c =>
        childSignature previousVariantTypes opts c =
          toSignature (variantKeyToValues k nextVariantTypes opts.keySeparator)
            opts.caseInsensitiveMatch opts.trimMatch) = some r) :
    { r with variantKey := k } ∈
        (reconcileChildVariants previousVariantTypes nextVariantTypes opts).children
    ∧ r ∉ (reconcileChildVariants previousVariantTypes nextVariantTypes opts).dropped := by
  rw [reconcileChildVariants_unfiltered _ _ _ hsep hfil hcd]
  simp only []
  obtain ⟨indices, hmem, rfl⟩ := List.mem_map.1 hk
  have hchild : defaultChild (toVariantKey indices '-') ∈
      (cartesianIndexProduct
        (nextVariantTypes.map fun t => t.variantOptions.length)).map
          fun indices => defaultChild (toVariantKey indices '-') :=
    List.mem_map.2 ⟨indices, hmem, rfl⟩
  have hkeyval : (defaultChild (toVariantKey indices '-')).variantKey =
      toVariantKey indices '-' := rfl
  have hsig : childSignature previousVariantTypes opts r =
      toSignature
        (variantKeyToValues (toVariantKey indices '-') nextVariantTypes
          opts.keySeparator)
        opts.caseInsensitiveMatch opts.trimMatch := by
    have := List.find?_some hfind
    simpa using this
  constructor
  · apply List.mem_map.2
    refine ⟨defaultChild (toVariantKey indices '-'), hchild, ?_⟩
    rw [hkeyval, hfind]
  · intro hdrop
    rw [List.mem_filter] at hdrop
    have hcontains := hdrop.2
    simp only [Bool.not_eq_true', List.contains_eq_any_beq,
      List.any_eq_false] at hcontains
    exact hcontains (childSignature previousVariantTypes opts r)
      (List.mem_filterMap.2
        ⟨defaultChild (toVariantKey indices '-'), hchild, by
          simp [hkeyval, hfind, hsig]⟩)
      (by simp)
